import Mathlib

/-!
Shallow embedding of the health-check engine of
`src/health_check_dashboard.py` (class `HealthCheckDashboard`), together
with proofs of the specification's claims about it.

Modelling conventions:
* Python dicts (`st.session_state.results`, `st.session_state.history`,
  the persisted history artifact) are association lists
  `List (String × _)`; Python dict assignment `d[k] = v` is `dictInsert`
  (update-in-place for an existing key, append for a new one), matching
  Python's insertion-ordered dict semantics, and lookup is `lookupDict`.
* `datetime` values are the `DateTime` structure below (year through
  microsecond, the fields of a naive Python `datetime`); the wall-clock
  readings of `time.time()` and the float arithmetic of `response_time`
  are abstracted as environment-provided rational inputs, since no claim
  constrains their values.
* A probe of one URL is driven by a `ProbeEvent`: either the environment
  delivers an HTTP response (elapsed milliseconds and status code), or
  `requests.get` raises a `requests.exceptions.RequestException` whose
  `str` is the given message.  `check_url_health` is the `try/except`
  body of the Python method, total over these events.
* The two persisted artifacts (`urls.json`, `history.json`) are modelled
  by the shapes they can take as seen by `load_persisted_data`: missing
  file, unparseable/unreadable file (`json.JSONDecodeError` / `IOError`),
  parseable JSON of the wrong top-level type, or well-shaped content.
  JSON text encoding of lists, objects, strings, numbers and null is the
  identity in this structured view; the one non-trivial conversion, the
  `datetime` ↔ ISO-8601-string round-trip, is modelled in full down to
  the characters (`DateTime.isoformat` / `fromisoformat`, the latter
  restricted to the canonical shapes `isoformat` emits, which are the
  only ones `save_persisted_data` writes).
-/

namespace HealthCheck

/-- Health status of one check: the strings "UP" / "DOWN" in the source. -/
inductive Status where
  | UP
  | DOWN
  deriving DecidableEq, Repr

/-- A naive Python `datetime` (as produced by `datetime.now()`): the seven
components, with the validity ranges enforced by the `datetime`
constructor captured separately by `DateTime.valid`. -/
structure DateTime where
  year : Nat
  month : Nat
  day : Nat
  hour : Nat
  minute : Nat
  second : Nat
  microsecond : Nat
  deriving DecidableEq, Repr

/-- Leap-year test, as in Python's `calendar.isleap`. -/
def isLeapYear (y : Nat) : Bool :=
  (y % 4 == 0 && y % 100 != 0) || y % 400 == 0

/-- Number of days in a month, as enforced by Python's `datetime`. -/
def daysInMonth (y m : Nat) : Nat :=
  if m == 2 then (if isLeapYear y then 29 else 28)
  else if m == 4 || m == 6 || m == 9 || m == 11 then 30
  else 31

/-- The ranges Python's `datetime` constructor enforces on its fields. -/
def DateTime.valid (d : DateTime) : Bool :=
  decide (1 ≤ d.year) && decide (d.year ≤ 9999) &&
  decide (1 ≤ d.month) && decide (d.month ≤ 12) &&
  decide (1 ≤ d.day) && decide (d.day ≤ daysInMonth d.year d.month) &&
  decide (d.hour ≤ 23) && decide (d.minute ≤ 59) &&
  decide (d.second ≤ 59) && decide (d.microsecond ≤ 999999)

/-- The value stored in an outcome's `timestamp` field.  It is a
`datetime` everywhere the engine writes it, but after loading a history
file whose timestamp string fails to parse the source keeps the raw
string (lines 86-91), so both shapes are representable. -/
def TimeVal : Type := DateTime ⊕ String

instance : DecidableEq TimeVal := by
  unfold TimeVal
  infer_instance

/-- One probe outcome: the dict built by `check_url_health` (and the
element type of history logs and of the latest-results snapshot). -/
structure HistoryEntry where
  url : String
  status : Status
  response_time : Option ℚ
  status_code : Option Nat
  timestamp : TimeVal
  error : Option String
  deriving DecidableEq

/-- What the environment does on one `requests.get` call: either an HTTP
response arrives (with the measured elapsed milliseconds, already rounded
as in the source, and the status code), or the call raises a
`RequestException` carrying the given message. -/
inductive ProbeEvent where
  | response (elapsedMs : ℚ) (code : Nat)
  | failure (msg : String)

/-- `HealthCheckDashboard.check_url_health` (lines 129-160): on a response,
UP iff the status code is 2xx, with the code and elapsed time recorded and
no error; on a `RequestException`, DOWN with no response time, no status
code, and the exception's text as the error. -/
def check_url_health (url : String) (now : DateTime) (ev : ProbeEvent) :
    HistoryEntry :=
  match ev with
  | .response elapsedMs code =>
    { url := url
      status := if 200 ≤ code ∧ code < 300 then Status.UP else Status.DOWN
      response_time := some elapsedMs
      status_code := some code
      timestamp := Sum.inl now
      error := none }
  | .failure msg =>
    { url := url
      status := Status.DOWN
      response_time := none
      status_code := none
      timestamp := Sum.inl now
      error := some msg }

/-- Python dict assignment `d[k] = v` on an insertion-ordered dict
represented as an association list: an existing key is updated in place,
a new key is appended at the end. -/
def dictInsert {α : Type} : List (String × α) → String → α → List (String × α)
  | [], k, v => [(k, v)]
  | (k', v') :: rest, k, v =>
    if k' = k then (k, v) :: rest else (k', v') :: dictInsert rest k v

/-- Python dict lookup `d.get(k)` on the association-list representation. -/
def lookupDict {α : Type} : List (String × α) → String → Option α
  | [], _ => none
  | (k', v') :: rest, k => if k' = k then some v' else lookupDict rest k

/-- Lines 175-179 of the source: `history[url].append(result)` followed by
`history[url] = history[url][-100:]` when the length exceeds 100 (Python's
`l[-100:]` is the suffix of the last 100 elements). -/
def appendCapped (log : List HistoryEntry) (result : HistoryEntry) :
    List HistoryEntry :=
  let appended := log ++ [result]
  if appended.length > 100 then appended.drop (appended.length - 100)
  else appended

/-- Lines 170-179 of the source as one operation on the history dict:
initialize the key with `[]` when missing (`history[url] = []`, which
appends a fresh key at the end of the dict), then append the outcome to
that key's log with the 100-entry cap. -/
def historyAppend : List (String × List HistoryEntry) → String → HistoryEntry →
    List (String × List HistoryEntry)
  | [], url, r => [(url, appendCapped [] r)]
  | (k, log) :: rest, url, r =>
    if k = url then (k, appendCapped log r) :: rest
    else (k, log) :: historyAppend rest url r

/-- The engine's mutable session state: the configured URL list, the
latest-results snapshot (`st.session_state.results`) and the per-URL
history logs (`st.session_state.history`). -/
structure AppState where
  urls : List String
  results : List (String × HistoryEntry)
  history : List (String × List HistoryEntry)

/-- One iteration of the loop of `check_all_urls` (lines 166-179):
probe the URL, store the outcome in the run's results dict, and append it
to the URL's history log. -/
def checkStep (probe : String → HistoryEntry)
    (acc : List (String × HistoryEntry) × List (String × List HistoryEntry))
    (url : String) :
    List (String × HistoryEntry) × List (String × List HistoryEntry) :=
  (dictInsert acc.1 url (probe url), historyAppend acc.2 url (probe url))

/-- `HealthCheckDashboard.check_all_urls` (lines 162-187): starting from a
fresh empty `results` dict, probe every configured URL in order, recording
each outcome in `results` and in that URL's capped history log, then
replace `st.session_state.results` wholesale with the new dict.  The
`probe` argument abstracts `check_url_health` applied to the environment's
responses for this run; the final `save_persisted_data()` call is a disk
side effect that does not touch the in-memory state. -/
def check_all_urls (probe : String → HistoryEntry) (s : AppState) : AppState :=
  let acc := s.urls.foldl (checkStep probe) ([], s.history)
  { s with results := acc.1, history := acc.2 }

/-- Summary of current status, as returned by `get_status_summary`. -/
structure Summary where
  total : Nat
  up : Nat
  down : Nat
  deriving DecidableEq, Repr

/-- `HealthCheckDashboard.get_status_summary` (lines 189-210): `total` is
the number of configured URLs; with an empty results dict everything
counts as down; otherwise the results are restricted to URLs still
configured, UP and DOWN entries are counted, and configured URLs absent
from the restricted results are added to the DOWN count. -/
def get_status_summary (s : AppState) : Summary :=
  let total := s.urls.length
  if s.results.isEmpty then { total := total, up := 0, down := total }
  else
    let active := s.results.filter (fun p => decide (p.1 ∈ s.urls))
    let up := (active.filter (fun p => decide (p.2.status = Status.UP))).length
    let down := (active.filter (fun p => decide (p.2.status = Status.DOWN))).length
    let checked : List String := active.map (fun p => p.1)
    let unchecked := (s.urls.filter (fun url => decide (url ∉ checked))).length
    { total := total, up := up, down := down + unchecked }

/-- Python's `str.startswith`: the second string is a prefix of the first,
decided character by character. -/
def startswith (s pre : String) : Bool :=
  s.data.take pre.data.length == pre.data

/-- The "Add URL" handler of `HealthCheckDashboard.run` (lines 344-358):
nothing happens on an empty input (the `and new_url` guard); a URL already
present is rejected with an "already exists" warning; one not starting
with `http://` or `https://` is rejected with a validation warning; and
otherwise the URL is appended to the configured list.  Returns the new
URL list and the warning message shown, if any. -/
def addUrl (urls : List String) (new_url : String) :
    List String × Option String :=
  if new_url = "" then (urls, none)
  else if new_url ∈ urls then (urls, some (new_url ++ " already exists"))
  else if ¬ (startswith new_url "http://" = true ∨
      startswith new_url "https://" = true) then
    (urls, some "Please enter a valid URL starting with http:// or https://")
  else (urls ++ [new_url], none)

/-- The character for one decimal digit, as written by Python's `%0Nd`
zero-padded formatting (48 is the code point of the zero digit). -/
def digitChar (n : Nat) : Char := Char.ofNat (48 + n)

/-- Two-digit zero-padded decimal rendering (`%02d` for values below 100,
which is all `datetime` ever feeds it). -/
def pad2 (n : Nat) : List Char := [digitChar (n / 10), digitChar (n % 10)]

/-- Four-digit zero-padded decimal rendering (`%04d`, for the year). -/
def pad4 (n : Nat) : List Char :=
  [digitChar (n / 1000), digitChar (n / 100 % 10),
   digitChar (n / 10 % 10), digitChar (n % 10)]

/-- Six-digit zero-padded decimal rendering (`%06d`, for microseconds). -/
def pad6 (n : Nat) : List Char :=
  [digitChar (n / 100000), digitChar (n / 10000 % 10),
   digitChar (n / 1000 % 10), digitChar (n / 100 % 10),
   digitChar (n / 10 % 10), digitChar (n % 10)]

/-- Python `datetime.isoformat()` for a naive datetime:
`YYYY-MM-DDTHH:MM:SS` followed by `.ffffff` exactly when the microsecond
component is non-zero. -/
def DateTime.isoformat (d : DateTime) : String :=
  String.mk
    (pad4 d.year ++ '-' :: pad2 d.month ++ '-' :: pad2 d.day ++
      'T' :: pad2 d.hour ++ ':' :: pad2 d.minute ++ ':' :: pad2 d.second ++
      (if d.microsecond == 0 then [] else '.' :: pad6 d.microsecond))

/-- One decimal digit of an ISO string (code points 48-57). -/
def parseDigit (c : Char) : Option Nat :=
  if 48 ≤ c.toNat ∧ c.toNat ≤ 57 then some (c.toNat - 48) else none

/-- Read exactly two decimal digits. -/
def parse2 : List Char → Option (Nat × List Char)
  | c1 :: c2 :: rest =>
    match parseDigit c1, parseDigit c2 with
    | some a, some b => some (10 * a + b, rest)
    | _, _ => none
  | _ => none

/-- Read exactly four decimal digits. -/
def parse4 (cs : List Char) : Option (Nat × List Char) :=
  match parse2 cs with
  | some (hi, rest) =>
    match parse2 rest with
    | some (lo, rest2) => some (100 * hi + lo, rest2)
    | none => none
  | none => none

/-- Read exactly six decimal digits. -/
def parse6 (cs : List Char) : Option (Nat × List Char) :=
  match parse4 cs with
  | some (hi, rest) =>
    match parse2 rest with
    | some (lo, rest2) => some (100 * hi + lo, rest2)
    | none => none
  | none => none

/-- Require one specific separator character. -/
def expectChar (c : Char) : List Char → Option (List Char)
  | c' :: cs => if c' = c then some cs else none
  | [] => none

/-- Python `datetime.fromisoformat` on the canonical shapes emitted by
`DateTime.isoformat` (date, `T`, time, optional 6-digit fraction), with
the constructor's range validation; other inputs — which
`save_persisted_data` never writes — are rejected. -/
def parseIsoChars (cs : List Char) : Option DateTime := do
  let (y, cs) ← parse4 cs
  let cs ← expectChar '-' cs
  let (mo, cs) ← parse2 cs
  let cs ← expectChar '-' cs
  let (da, cs) ← parse2 cs
  let cs ← expectChar 'T' cs
  let (hh, cs) ← parse2 cs
  let cs ← expectChar ':' cs
  let (mi, cs) ← parse2 cs
  let cs ← expectChar ':' cs
  let (ss, cs) ← parse2 cs
  match cs with
  | [] =>
    let dt : DateTime := ⟨y, mo, da, hh, mi, ss, 0⟩
    if dt.valid then some dt else none
  | c :: rest =>
    if c = '.' then
      match parse6 rest with
      | some (us, []) =>
        let dt : DateTime := ⟨y, mo, da, hh, mi, ss, us⟩
        if dt.valid then some dt else none
      | _ => none
    else none

/-- `datetime.fromisoformat` on a string, see `parseIsoChars`. -/
def fromisoformat (s : String) : Option DateTime :=
  parseIsoChars s.data

/-- Line 119-120 of the source: a `datetime` timestamp is serialized with
`isoformat()`; any other (string) timestamp is written unchanged. -/
def saveTimestamp : TimeVal → String
  | Sum.inl d => d.isoformat
  | Sum.inr s => s

/-- Lines 86-91 of the source: a loaded timestamp string is parsed with
`datetime.fromisoformat`; if parsing fails (`ValueError`), the original
string is kept. -/
def loadTimestamp (s : String) : TimeVal :=
  match fromisoformat s with
  | some d => Sum.inl d
  | none => Sum.inr s

/-- A history entry as it sits in `history.json`: the same fields, with
the timestamp in its textual form. -/
structure SerializedEntry where
  url : String
  status : Status
  response_time : Option ℚ
  status_code : Option Nat
  timestamp : String
  error : Option String
  deriving DecidableEq

/-- Lines 116-121 of the source: `entry.copy()` with the timestamp
converted to its ISO text; every other field is written unchanged. -/
def serializeEntry (e : HistoryEntry) : SerializedEntry :=
  { url := e.url
    status := e.status
    response_time := e.response_time
    status_code := e.status_code
    timestamp := saveTimestamp e.timestamp
    error := e.error }

/-- Lines 82-92 of the source: `entry.copy()` with the timestamp string
parsed back to a `datetime` when possible; every other field is read
unchanged. -/
def deserializeEntry (e : SerializedEntry) : HistoryEntry :=
  { url := e.url
    status := e.status
    response_time := e.response_time
    status_code := e.status_code
    timestamp := loadTimestamp e.timestamp
    error := e.error }

/-- The shapes the `urls.json` artifact can take, as distinguished by
`load_persisted_data`: no file, unreadable/unparseable file, valid JSON
that is not a list, or a JSON list of URL strings. -/
inductive UrlsArtifact where
  | missing
  | corrupt
  | nonList
  | list (urls : List String)

/-- The shapes the `history.json` artifact can take, as distinguished by
`load_persisted_data`: no file, unreadable/unparseable file, valid JSON
that is not an object, or an object mapping each URL to its serialized
entries. -/
inductive HistoryArtifact where
  | missing
  | corrupt
  | nonDict
  | dict (entries : List (String × List SerializedEntry))

/-- The default URL list hard-coded in the source (lines 50-55 and
analogues). -/
def defaultUrls : List String :=
  ["https://httpbin.org/status/200",
   "https://httpbin.org/status/404",
   "https://httpbin.org/delay/2",
   "https://jsonplaceholder.typicode.com/posts/1"]

/-- The URLs block of `load_persisted_data` (lines 41-70): the loaded list
on a well-formed artifact, the defaults on a missing, corrupt
(`json.JSONDecodeError` / `IOError`) or non-list artifact. -/
def loadUrlsArtifact : UrlsArtifact → List String
  | UrlsArtifact.list us => us
  | _ => defaultUrls

/-- The history block of `load_persisted_data` (lines 72-100): each
entry's timestamp is parsed back on a well-formed artifact; a missing,
corrupt or non-object artifact yields the empty history. -/
def loadHistoryArtifact : HistoryArtifact → List (String × List HistoryEntry)
  | HistoryArtifact.dict entries =>
    entries.map (fun p => (p.1, p.2.map deserializeEntry))
  | _ => []

/-- `HealthCheckDashboard.load_persisted_data` (lines 39-100): the two
artifacts are processed by two independent try/except blocks, one
assigning the URL list and one the history. -/
def load_persisted_data (ua : UrlsArtifact) (ha : HistoryArtifact) :
    List String × List (String × List HistoryEntry) :=
  (loadUrlsArtifact ua, loadHistoryArtifact ha)

/-- `HealthCheckDashboard.save_persisted_data` (lines 102-127): the URL
list is written as a JSON list; the history is written as a JSON object
with each entry's timestamp serialized to ISO text. -/
def save_persisted_data (urls : List String)
    (history : List (String × List HistoryEntry)) :
    UrlsArtifact × HistoryArtifact :=
  (UrlsArtifact.list urls,
   HistoryArtifact.dict (history.map (fun p => (p.1, p.2.map serializeEntry))))

/-- A timestamp that is an in-range `datetime` (the shape every timestamp
written by the engine has). -/
def validTimestamp : TimeVal → Bool
  | Sum.inl d => d.valid
  | Sum.inr _ => false

/-- All timestamps of a history are in-range `datetime` values (the shape
of every history the engine itself produces, and the scope of the
round-trip claim). -/
def validHistoryB (history : List (String × List HistoryEntry)) : Bool :=
  history.all (fun p => p.2.all (fun e => validTimestamp e.timestamp))

/-- A small concrete history used only to witness the round-trip claim:
one URL with one UP entry (with microseconds) and one DOWN entry (without
microseconds). -/
def sampleHistory : List (String × List HistoryEntry) :=
  [("a",
    [⟨"a", Status.UP, some 5, some 200,
       Sum.inl ⟨2024, 1, 2, 3, 4, 5, 123456⟩, none⟩,
     ⟨"a", Status.DOWN, none, none,
       Sum.inl ⟨2023, 12, 31, 23, 59, 59, 0⟩, some "boom"⟩])]

/-- A small concrete state used only to witness C2: URLs `a` (checked UP),
`b` (never checked), and a stale snapshot entry for the removed URL
`gone` (checked DOWN). -/
def sampleState : AppState :=
  ⟨["a", "b"],
   [("a", check_url_health "a" ⟨2024, 1, 2, 3, 4, 5, 6⟩
      (ProbeEvent.response 5 200)),
    ("gone", check_url_health "gone" ⟨2024, 1, 2, 3, 4, 5, 6⟩
      (ProbeEvent.failure "boom"))],
   []⟩

/-- C1: whenever an HTTP response is received, the outcome's status is UP
exactly when the received code lies in [200,300) and DOWN otherwise, its
`status_code` field is the received code, and its `error` field is absent;
the 404 scenario of the spec is the instance `code = 404`, whose code lies
outside [200,300). -/
theorem response_outcome_classifies_by_code
    (url : String) (now : DateTime) (t : ℚ) (code : Nat) :
    ((check_url_health url now (ProbeEvent.response t code)).status = Status.UP
        ↔ (200 ≤ code ∧ code < 300)) ∧
    ((check_url_health url now (ProbeEvent.response t code)).status = Status.DOWN
        ↔ ¬ (200 ≤ code ∧ code < 300)) ∧
    (check_url_health url now (ProbeEvent.response t code)).status_code = some code ∧
    (check_url_health url now (ProbeEvent.response t code)).error = none := by
  refine ⟨?_, ?_, rfl, rfl⟩ <;>
    · simp only [check_url_health]
      split <;> simp_all

/-- C3: on any transport-level failure (a `RequestException`), the outcome
is DOWN with `response_time` and `status_code` absent and `error` set to
the exception's text; `check_url_health` is a total function of the probe
event, so no exception escapes to the caller. -/
theorem failure_outcome_is_down_with_error
    (url : String) (now : DateTime) (msg : String) :
    (check_url_health url now (ProbeEvent.failure msg)).status = Status.DOWN ∧
    (check_url_health url now (ProbeEvent.failure msg)).response_time = none ∧
    (check_url_health url now (ProbeEvent.failure msg)).status_code = none ∧
    (check_url_health url now (ProbeEvent.failure msg)).error = some msg :=
  ⟨rfl, rfl, rfl, rfl⟩

/-- Appending with the cap, starting from the empty log, keeps exactly the
suffix of the last (at most) 100 outcomes. -/
lemma foldl_appendCapped_eq_drop (os : List HistoryEntry) :
    os.foldl appendCapped [] = os.drop (os.length - 100) := by
  induction os using List.reverseRecOn with
  | nil => rfl
  | append_singleton os o ih =>
    rw [List.foldl_append, List.foldl_cons, List.foldl_nil, ih]
    by_cases h : 100 ≤ os.length
    · have e1 : (os.drop (os.length - 100)).length = 100 := by
        rw [List.length_drop]; omega
      have e3 : os.length - 99 ≤ os.length := by omega
      simp only [appendCapped, List.length_append, e1, List.length_cons,
        List.length_nil]
      rw [if_pos (by omega), List.drop_append_of_le_length (by omega),
        List.drop_drop]
      have e4 : os.length - 100 + (100 + (0 + 1) - 100) = os.length - 99 := by
        omega
      have e5 : os.length + (0 + 1) - 100 = os.length - 99 := by omega
      rw [e4, e5, List.drop_append_of_le_length e3]
    · have e1 : os.length - 100 = 0 := by omega
      simp only [appendCapped, e1, List.drop_zero, List.length_append,
        List.length_cons, List.length_nil]
      rw [if_neg (by omega)]
      have e2 : os.length + (0 + 1) - 100 = 0 := by omega
      rw [e2, List.drop_zero]

/-- C4: after appending N successive outcomes to an initially empty
history log through the source's append-then-truncate step (lines
175-179), the log is exactly the suffix of the most recent min(N, 100)
outcomes in their original chronological order, and its length is
min(N, 100); the cap is enforced because each step drops the oldest
entries down to length 100 whenever the append exceeds 100. -/
theorem history_log_keeps_last_100 (os : List HistoryEntry) :
    os.foldl appendCapped [] = os.drop (os.length - 100) ∧
    (os.foldl appendCapped []).length = min os.length 100 := by
  refine ⟨foldl_appendCapped_eq_drop os, ?_⟩
  rw [foldl_appendCapped_eq_drop os, List.length_drop]
  omega

/-- Looking up a key after a dict assignment: the assigned key maps to the
new value, every other key is untouched. -/
lemma lookupDict_dictInsert {α : Type} (m : List (String × α)) (k : String)
    (v : α) (key : String) :
    lookupDict (dictInsert m k v) key =
      if key = k then some v else lookupDict m key := by
  induction m with
  | nil =>
    by_cases h : key = k
    · subst h
      simp [dictInsert, lookupDict]
    · simp [dictInsert, lookupDict, h, Ne.symm h]
  | cons p rest ih =>
    obtain ⟨k', v'⟩ := p
    by_cases hk : k' = k
    · subst hk
      by_cases h : key = k' <;> simp [dictInsert, lookupDict, h, eq_comm]
    · by_cases h : k' = key
      · have hkk : key ≠ k := by
          rw [← h]
          exact hk
        simp [dictInsert, lookupDict, hk, h, hkk]
      · simp [dictInsert, lookupDict, hk, h, ih]

/-- Appending to one URL's history log leaves every other key's log
untouched. -/
lemma lookupDict_historyAppend_ne (h : List (String × List HistoryEntry))
    (url : String) (r : HistoryEntry) (key : String) (hne : key ≠ url) :
    lookupDict (historyAppend h url r) key = lookupDict h key := by
  induction h with
  | nil =>
    simp [historyAppend, lookupDict, Ne.symm hne]
  | cons p rest ih =>
    obtain ⟨k, log⟩ := p
    by_cases hk : k = url
    · subst hk
      have hkey : k ≠ key := fun e => hne e.symm
      simp [historyAppend, lookupDict, hkey]
    · simp [historyAppend, lookupDict, hk, ih]

/-- Appending to one URL's history log appends (with the cap) to that
key's log, treating a missing key as the empty log. -/
lemma lookupDict_historyAppend_self (h : List (String × List HistoryEntry))
    (url : String) (r : HistoryEntry) :
    lookupDict (historyAppend h url r) url =
      some (appendCapped ((lookupDict h url).getD []) r) := by
  induction h with
  | nil => simp [historyAppend, lookupDict]
  | cons p rest ih =>
    obtain ⟨k, log⟩ := p
    by_cases hk : k = url
    · subst hk
      simp [historyAppend, lookupDict]
    · simp [historyAppend, lookupDict, hk, ih]

/-- The capped append always keeps the appended outcome as the final
element. -/
lemma getLast?_appendCapped (l : List HistoryEntry) (r : HistoryEntry) :
    (appendCapped l r).getLast? = some r := by
  simp only [appendCapped]
  by_cases hl : (l ++ [r]).length > 100
  · rw [if_pos hl,
      List.drop_append_of_le_length
        (by simp only [List.length_append, List.length_cons,
          List.length_nil] at hl ⊢; omega),
      List.getLast?_concat]
  · rw [if_neg hl, List.getLast?_concat]

/-- After folding the check loop over a URL list, the results dict maps
each listed URL to its probe outcome and leaves other keys as they were
in the accumulator. -/
lemma foldl_checkStep_results (probe : String → HistoryEntry)
    (urls : List String) (url : String) :
    ∀ acc, lookupDict (List.foldl (checkStep probe) acc urls).1 url =
      if url ∈ urls then some (probe url) else lookupDict acc.1 url := by
  induction urls with
  | nil => intro acc; simp
  | cons u us ih =>
    intro acc
    rw [List.foldl_cons, ih]
    by_cases h : url ∈ us
    · simp [h]
    · by_cases hu : url = u
      · subst hu
        simp [h, checkStep, lookupDict_dictInsert]
      · simp [h, hu, checkStep, lookupDict_dictInsert]

/-- After folding the check loop over a URL list, the history log of any
URL not in the list is exactly what it was in the accumulator. -/
lemma foldl_checkStep_history_frame (probe : String → HistoryEntry)
    (url : String) :
    ∀ (urls : List String) (acc), url ∉ urls →
      lookupDict (List.foldl (checkStep probe) acc urls).2 url =
        lookupDict acc.2 url := by
  intro urls
  induction urls with
  | nil => intro acc _; rfl
  | cons u us ih =>
    intro acc h
    have h1 : url ≠ u := by intro e; exact h (by simp [e])
    have h2 : url ∉ us := by intro e; exact h (by simp [e])
    rw [List.foldl_cons, ih _ h2]
    exact lookupDict_historyAppend_ne _ _ _ _ h1

/-- After folding the check loop over a URL list, every listed URL has a
history log whose final entry is its probe outcome. -/
lemma foldl_checkStep_history_mem (probe : String → HistoryEntry)
    (url : String) :
    ∀ (urls : List String) (acc), url ∈ urls →
      ∃ log, lookupDict (List.foldl (checkStep probe) acc urls).2 url = some log ∧
        log.getLast? = some (probe url) := by
  intro urls
  induction urls with
  | nil =>
    intro acc h
    exact absurd h (List.not_mem_nil url)
  | cons u us ih =>
    intro acc h
    by_cases hus : url ∈ us
    · exact ih _ hus
    · have hu : url = u := by
        rcases List.mem_cons.mp h with h1 | h2
        · exact h1
        · exact absurd h2 hus
      subst hu
      rw [List.foldl_cons, foldl_checkStep_history_frame probe url us _ hus]
      exact ⟨appendCapped ((lookupDict acc.2 url).getD []) (probe url),
        lookupDict_historyAppend_self _ _ _, getLast?_appendCapped _ _⟩

/-- C6: one orchestration run replaces the latest snapshot wholesale — the
new results dict maps exactly the URLs configured at the start of the run
to the outcome produced for them in this run, and any URL absent from the
run's input is absent from the new snapshot, whatever the previous
snapshot contained. -/
theorem snapshot_replaced_wholesale (probe : String → HistoryEntry)
    (s : AppState) (url : String) :
    lookupDict (check_all_urls probe s).results url =
      if url ∈ s.urls then some (probe url) else none := by
  show lookupDict (s.urls.foldl (checkStep probe) ([], s.history)).1 url = _
  rw [foldl_checkStep_results]
  rfl

/-- C9: an orchestration run only touches the history logs of the URLs it
checks — for a URL outside the configured list, its history log (present
or absent) is exactly the same before and after the run. -/
theorem unconfigured_history_untouched (probe : String → HistoryEntry)
    (s : AppState) (url : String) (h : url ∉ s.urls) :
    lookupDict (check_all_urls probe s).history url =
      lookupDict s.history url := by
  show lookupDict (s.urls.foldl (checkStep probe) ([], s.history)).2 url = _
  exact foldl_checkStep_history_frame probe url s.urls ([], s.history) h

/-- Witness for C9 at a concrete run: checking `["a"]` leaves the history
log of the unconfigured URL `"b"` untouched. -/
theorem unconfigured_history_untouched_witness :
    ("b" : String) ∉ (["a"] : List String) ∧
    lookupDict (check_all_urls
        (fun u => check_url_health u ⟨2024, 1, 2, 3, 4, 5, 6⟩
          (ProbeEvent.response 5 200))
        ⟨["a"], [],
          [("b", [check_url_health "b" ⟨2024, 1, 1, 0, 0, 0, 0⟩
            (ProbeEvent.failure "boom")])]⟩).history "b" =
      lookupDict
        [("b", [check_url_health "b" ⟨2024, 1, 1, 0, 0, 0, 0⟩
          (ProbeEvent.failure "boom")])] "b" :=
  ⟨by decide,
    unconfigured_history_untouched _ _ "b" (by decide)⟩

/-- C10: immediately after a run, the snapshot and the history cohere —
every URL configured during the run has a history log whose most recent
entry is exactly its latest-snapshot entry. -/
theorem snapshot_matches_history_last (probe : String → HistoryEntry)
    (s : AppState) (url : String) (h : url ∈ s.urls) :
    ∃ log, lookupDict (check_all_urls probe s).history url = some log ∧
      lookupDict (check_all_urls probe s).results url = log.getLast? := by
  obtain ⟨log, h1, h2⟩ :=
    foldl_checkStep_history_mem probe url s.urls ([], s.history) h
  refine ⟨log, h1, ?_⟩
  have h3 := foldl_checkStep_results probe s.urls url ([], s.history)
  rw [if_pos h] at h3
  show lookupDict (s.urls.foldl (checkStep probe) ([], s.history)).1 url = _
  rw [h3, h2]

/-- Witness for C10 at a concrete run: after checking `["a"]`, the
snapshot entry for `"a"` equals the last element of its history log. -/
theorem snapshot_matches_history_last_witness :
    ("a" : String) ∈ (["a"] : List String) ∧
    ∃ log,
      lookupDict (check_all_urls
          (fun u => check_url_health u ⟨2024, 1, 2, 3, 4, 5, 6⟩
            (ProbeEvent.response 5 200))
          ⟨["a"], [], []⟩).history "a" = some log ∧
      lookupDict (check_all_urls
          (fun u => check_url_health u ⟨2024, 1, 2, 3, 4, 5, 6⟩
            (ProbeEvent.response 5 200))
          ⟨["a"], [], []⟩).results "a" = log.getLast? :=
  ⟨by decide,
    snapshot_matches_history_last _ _ "a" (by decide)⟩

/-- Every result entry is either UP or DOWN, so the two status counts
partition the restricted results. -/
lemma length_filter_status (l : List (String × HistoryEntry)) :
    (l.filter (fun p => decide (p.2.status = Status.UP))).length +
      (l.filter (fun p => decide (p.2.status = Status.DOWN))).length =
      l.length := by
  induction l with
  | nil => rfl
  | cons p rest ih =>
    cases hs : p.2.status
    · simp [List.filter_cons, hs]
      omega
    · simp [List.filter_cons, hs]
      omega

/-- Keys of the results restricted to configured URLs, computed either
way round. -/
lemma map_fst_filter_mem {β : Type} (R : List (String × β)) (U : List String) :
    (R.filter (fun p => decide (p.1 ∈ U))).map (fun p => p.1) =
      (R.map (fun p => p.1)).filter (fun k => decide (k ∈ U)) := by
  induction R with
  | nil => rfl
  | cons p rest ih =>
    by_cases h : p.1 ∈ U <;> simp [List.filter_cons, h, ih]

/-- Counting the members of a duplicate-free sublist inside a
duplicate-free list: the filter has exactly the sublist's length. -/
lemma length_filter_mem_of_nodup (U C : List String) (hU : U.Nodup)
    (hC : C.Nodup) (hsub : ∀ c ∈ C, c ∈ U) :
    (U.filter (fun u => decide (u ∈ C))).length = C.length := by
  have hnd : (U.filter (fun u => decide (u ∈ C))).Nodup := hU.filter _
  have hset : (U.filter (fun u => decide (u ∈ C))).toFinset = C.toFinset := by
    ext a
    simp only [List.mem_toFinset, List.mem_filter, decide_eq_true_eq]
    exact ⟨fun h => h.2, fun h => ⟨hsub a h, h⟩⟩
  rw [← List.toFinset_card_of_nodup hnd, ← List.toFinset_card_of_nodup hC,
    hset]

/-- C2: for every duplicate-free configured URL list (ConfiguredTargets is
a set) and every latest snapshot (a dict, so with duplicate-free keys) —
empty, stale, or partially overlapping — the summary satisfies
up + down = total. -/
theorem summary_up_plus_down_eq_total (s : AppState) (hu : s.urls.Nodup)
    (hr : (s.results.map (fun p => p.1)).Nodup) :
    (get_status_summary s).up + (get_status_summary s).down =
      (get_status_summary s).total := by
  by_cases hres : s.results.isEmpty
  · simp [get_status_summary, hres]
  · simp only [get_status_summary, hres, if_false, Bool.false_eq_true]
    set A := s.results.filter (fun p => decide (p.1 ∈ s.urls)) with hA
    have hP1 := length_filter_status A
    have hM : A.map (fun p => p.1) =
        (s.results.map (fun p => p.1)).filter (fun k => decide (k ∈ s.urls)) :=
      map_fst_filter_mem _ _
    have hCnd : (A.map (fun p => p.1)).Nodup := by
      rw [hM]
      exact hr.filter _
    have hsub : ∀ c ∈ A.map (fun p => p.1), c ∈ s.urls := by
      intro c hc
      obtain ⟨p, hp, hpc⟩ := List.mem_map.mp hc
      have hmem := (List.mem_filter.mp hp).2
      rw [decide_eq_true_eq] at hmem
      rw [← hpc]
      exact hmem
    have h4 := length_filter_mem_of_nodup s.urls (A.map (fun p => p.1)) hu
      hCnd hsub
    have h3 : s.urls.length =
        (s.urls.filter (fun u => decide (u ∈ A.map (fun p => p.1)))).length +
          (s.urls.filter (fun u => decide (u ∉ A.map (fun p => p.1)))).length := by
      have hfun : (fun u => decide (u ∉ A.map (fun p => p.1))) =
          (fun u => ! decide (u ∈ A.map (fun p => p.1))) := by
        funext u
        exact decide_not
      rw [hfun]
      exact List.length_eq_length_filter_add _
    have h2 : A.length = (A.map (fun p => p.1)).length :=
      (List.length_map _ _).symm
    omega

/-- Witness for C2 at a concrete state: one configured URL checked UP, one
never checked, and one stale snapshot entry for a removed URL. -/
theorem summary_up_plus_down_eq_total_witness :
    sampleState.urls.Nodup ∧
    (sampleState.results.map (fun p => p.1)).Nodup ∧
    (get_status_summary sampleState).up + (get_status_summary sampleState).down =
      (get_status_summary sampleState).total :=
  ⟨by decide, by decide,
    summary_up_plus_down_eq_total _ (by decide) (by decide)⟩

/-- C8: attempting to add a non-empty URL that is already configured, or
one that does not start with `http://` or `https://`, leaves the
configured list unchanged and reports a validation warning. -/
theorem add_rejects_duplicate_or_malformed (urls : List String)
    (new_url : String) (hne : new_url ≠ "")
    (h : new_url ∈ urls ∨
      ¬ (startswith new_url "http://" = true ∨
        startswith new_url "https://" = true)) :
    (addUrl urls new_url).1 = urls ∧ (addUrl urls new_url).2.isSome = true := by
  unfold addUrl
  rw [if_neg hne]
  rcases h with h | h
  · rw [if_pos h]
    exact ⟨rfl, rfl⟩
  · by_cases hdup : new_url ∈ urls
    · rw [if_pos hdup]
      exact ⟨rfl, rfl⟩
    · rw [if_neg hdup, if_pos h]
      exact ⟨rfl, rfl⟩

/-- Witness for C8 at concrete inputs: `"ftp://x"` is non-empty and
malformed, and adding it to `["http://a"]` is rejected without mutating
the list. -/
theorem add_rejects_duplicate_or_malformed_witness :
    ("ftp://x" : String) ≠ "" ∧
    (("ftp://x" : String) ∈ (["http://a"] : List String) ∨
      ¬ (startswith "ftp://x" "http://" = true ∨
        startswith "ftp://x" "https://" = true)) ∧
    ((addUrl ["http://a"] "ftp://x").1 = ["http://a"] ∧
      (addUrl ["http://a"] "ftp://x").2.isSome = true) :=
  ⟨by decide, by decide,
    add_rejects_duplicate_or_malformed _ _ (by decide) (by decide)⟩

/-- Reading back one zero-padded digit gives the digit. -/
lemma parseDigit_digitChar (k : Nat) (hk : k ≤ 9) :
    parseDigit (digitChar k) = some k := by
  interval_cases k <;> decide

/-- Reading back a two-digit zero-padded number gives the number. -/
lemma parse2_pad2 (n : Nat) (rest : List Char) (h : n < 100) :
    parse2 (pad2 n ++ rest) = some (n, rest) := by
  have h1 : n / 10 ≤ 9 := by omega
  have h2 : n % 10 ≤ 9 := by omega
  simp only [pad2, List.cons_append, List.nil_append, parse2,
    parseDigit_digitChar _ h1, parseDigit_digitChar _ h2]
  have e : 10 * (n / 10) + n % 10 = n := by omega
  rw [e]

/-- The four-digit padding splits into two two-digit paddings. -/
lemma pad4_eq (n : Nat) : pad4 n = pad2 (n / 100) ++ pad2 (n % 100) := by
  have e1 : n / 100 / 10 = n / 1000 := by omega
  have e3 : n % 100 / 10 = n / 10 % 10 := by omega
  have e4 : n % 100 % 10 = n % 10 := by omega
  simp only [pad4, pad2, List.cons_append, List.nil_append, e1, e3, e4]

/-- Reading back a four-digit zero-padded number gives the number. -/
lemma parse4_pad4 (n : Nat) (rest : List Char) (h : n < 10000) :
    parse4 (pad4 n ++ rest) = some (n, rest) := by
  rw [pad4_eq, List.append_assoc]
  simp only [parse4,
    parse2_pad2 (n / 100) (pad2 (n % 100) ++ rest) (by omega),
    parse2_pad2 (n % 100) rest (by omega)]
  have e : 100 * (n / 100) + n % 100 = n := by omega
  rw [e]

/-- The six-digit padding splits into a four-digit and a two-digit one. -/
lemma pad6_eq (n : Nat) : pad6 n = pad4 (n / 100) ++ pad2 (n % 100) := by
  have e1 : n / 100 / 1000 = n / 100000 := by omega
  have e2 : n / 100 / 100 % 10 = n / 10000 % 10 := by omega
  have e3 : n / 100 / 10 % 10 = n / 1000 % 10 := by omega
  have e4 : n % 100 / 10 = n / 10 % 10 := by omega
  have e5 : n % 100 % 10 = n % 10 := by omega
  simp only [pad6, pad4, pad2, List.cons_append, List.nil_append, e1, e2, e3,
    e4, e5]

/-- Reading back a six-digit zero-padded number gives the number. -/
lemma parse6_pad6 (n : Nat) (rest : List Char) (h : n < 1000000) :
    parse6 (pad6 n ++ rest) = some (n, rest) := by
  rw [pad6_eq, List.append_assoc]
  simp only [parse6,
    parse4_pad4 (n / 100) (pad2 (n % 100) ++ rest) (by omega),
    parse2_pad2 (n % 100) rest (by omega)]
  have e : 100 * (n / 100) + n % 100 = n := by omega
  rw [e]

/-- Reading back a six-digit zero-padded number at the end of the input. -/
lemma parse6_pad6_nil (n : Nat) (h : n < 1000000) :
    parse6 (pad6 n) = some (n, []) := by
  have e := parse6_pad6 n [] h
  rwa [List.append_nil] at e

/-- The expected separator is consumed. -/
lemma expectChar_self (c : Char) (cs : List Char) :
    expectChar c (c :: cs) = some cs := by
  simp [expectChar]

/-- Months have at most 31 days. -/
lemma daysInMonth_le (y m : Nat) : daysInMonth y m ≤ 31 := by
  simp only [daysInMonth]
  split
  · split <;> omega
  · split <;> omega

/-- Reading back a two-digit zero-padded number at the end of the input. -/
lemma parse2_pad2_nil (n : Nat) (h : n < 100) :
    parse2 (pad2 n) = some (n, []) := by
  have e := parse2_pad2 n [] h
  rwa [List.append_nil] at e

set_option maxHeartbeats 1000000 in
/-- Parsing an in-range datetime's canonical ISO text recovers the
datetime exactly. -/
theorem fromisoformat_isoformat (d : DateTime) (h : d.valid = true) :
    fromisoformat d.isoformat = some d := by
  obtain ⟨y, mo, da, hh, mi, ss, us⟩ := d
  have hdm : daysInMonth y mo ≤ 31 := daysInMonth_le y mo
  have hb := h
  simp only [DateTime.valid, Bool.and_eq_true, decide_eq_true_eq] at hb
  obtain ⟨⟨⟨⟨⟨⟨⟨⟨⟨h1, h2⟩, h3⟩, h4⟩, h5⟩, h6⟩, h7⟩, h8⟩, h9⟩, h10⟩ := hb
  have hy : y < 10000 := by omega
  have hmo : mo < 100 := by omega
  have hda : da < 100 := by omega
  have hhh : hh < 100 := by omega
  have hmi : mi < 100 := by omega
  have hss : ss < 100 := by omega
  have hus : us < 1000000 := by omega
  by_cases h0 : us = 0
  · subst h0
    show parseIsoChars
        (pad4 y ++ '-' :: pad2 mo ++ '-' :: pad2 da ++ 'T' :: pad2 hh ++
          ':' :: pad2 mi ++ ':' :: pad2 ss ++
          (if (0 : Nat) == 0 then [] else '.' :: pad6 0)) =
      some ⟨y, mo, da, hh, mi, ss, 0⟩
    simp only [beq_self_eq_true, if_true, List.append_nil, List.append_assoc,
      List.cons_append, parseIsoChars, Option.bind_eq_bind,
      parse4_pad4 y _ hy, Option.some_bind, expectChar_self,
      parse2_pad2 mo _ hmo, parse2_pad2 da _ hda, parse2_pad2 hh _ hhh,
      parse2_pad2 mi _ hmi, parse2_pad2_nil ss hss, h, eq_self_iff_true,
      if_true]
  · have hbe : (us == 0) = false := by
      simp [h0]
    show parseIsoChars
        (pad4 y ++ '-' :: pad2 mo ++ '-' :: pad2 da ++ 'T' :: pad2 hh ++
          ':' :: pad2 mi ++ ':' :: pad2 ss ++
          (if us == 0 then [] else '.' :: pad6 us)) =
      some ⟨y, mo, da, hh, mi, ss, us⟩
    simp only [hbe, Bool.false_eq_true, if_false, List.append_assoc,
      List.cons_append, parseIsoChars, Option.bind_eq_bind,
      parse4_pad4 y _ hy, Option.some_bind, expectChar_self,
      parse2_pad2 mo _ hmo, parse2_pad2 da _ hda, parse2_pad2 hh _ hhh,
      parse2_pad2 mi _ hmi, parse2_pad2 ss ('.' :: pad6 us) hss,
      parse6_pad6_nil us hus, h, eq_self_iff_true, if_true]

/-- Serializing then deserializing one entry with an in-range datetime
timestamp is the identity. -/
lemma deserialize_serialize (e : HistoryEntry)
    (h : validTimestamp e.timestamp = true) :
    deserializeEntry (serializeEntry e) = e := by
  obtain ⟨url, st, rt, sc, ts, err⟩ := e
  rcases ts with d | s
  · simp only [validTimestamp] at h
    simp only [serializeEntry, deserializeEntry, saveTimestamp, loadTimestamp,
      fromisoformat_isoformat d h]
  · simp only [validTimestamp] at h
    cases h

/-- Serializing then deserializing a list of entries with in-range
datetime timestamps is the identity. -/
lemma map_deserialize_serialize (entries : List HistoryEntry)
    (hv : ∀ e ∈ entries, validTimestamp e.timestamp = true) :
    entries.map (fun e => deserializeEntry (serializeEntry e)) = entries := by
  induction entries with
  | nil => rfl
  | cons e rest ih =>
    rw [List.map_cons,
      deserialize_serialize e (hv e (List.mem_cons_self e rest)),
      ih (fun x hx => hv x (List.mem_cons_of_mem e hx))]

/-- Writing the history artifact and reading it back is the identity on
histories whose timestamps are in-range datetimes. -/
lemma load_save_history (history : List (String × List HistoryEntry))
    (hv : ∀ p ∈ history, ∀ e ∈ p.2, validTimestamp e.timestamp = true) :
    (history.map (fun p => (p.1, p.2.map serializeEntry))).map
      (fun p => (p.1, p.2.map deserializeEntry)) = history := by
  induction history with
  | nil => rfl
  | cons p rest ih =>
    have hp : ∀ e ∈ p.2, validTimestamp e.timestamp = true :=
      fun e he => hv p (List.mem_cons_self p rest) e he
    have hrest : ∀ q ∈ rest, ∀ e ∈ q.2, validTimestamp e.timestamp = true :=
      fun q hq e he => hv q (List.mem_cons_of_mem p hq) e he
    simp only [List.map_cons]
    rw [ih hrest, List.map_map]
    have hcomp : deserializeEntry ∘ serializeEntry =
        fun e => deserializeEntry (serializeEntry e) := rfl
    rw [hcomp, map_deserialize_serialize p.2 hp]

/-- C5: saving then loading is the identity — for every URL list and every
history whose timestamps are (in-range) datetimes, `load_persisted_data`
applied to the artifacts written by `save_persisted_data` returns exactly
the original URL list and history, the timestamps having round-tripped
losslessly through their ISO-8601 text. -/
theorem load_save_roundtrip (urls : List String)
    (history : List (String × List HistoryEntry))
    (hv : validHistoryB history = true) :
    load_persisted_data (save_persisted_data urls history).1
        (save_persisted_data urls history).2 = (urls, history) := by
  have hv' : ∀ p ∈ history, ∀ e ∈ p.2, validTimestamp e.timestamp = true := by
    simp only [validHistoryB, List.all_eq_true] at hv
    exact hv
  show (loadUrlsArtifact (UrlsArtifact.list urls),
    loadHistoryArtifact (HistoryArtifact.dict
      (history.map (fun p => (p.1, p.2.map serializeEntry))))) = (urls, history)
  simp only [loadUrlsArtifact, loadHistoryArtifact]
  rw [load_save_history history hv']

/-- Witness for C5 at a concrete state: one URL and a two-entry history
(with and without microseconds) round-trip exactly. -/
theorem load_save_roundtrip_witness :
    validHistoryB sampleHistory = true ∧
    load_persisted_data (save_persisted_data ["u"] sampleHistory).1
        (save_persisted_data ["u"] sampleHistory).2 = (["u"], sampleHistory) :=
  ⟨by decide, load_save_roundtrip _ _ (by decide)⟩

/-- C7: a corrupt history artifact — unparseable JSON or an unreadable
file (`HistoryArtifact.corrupt`), or valid JSON that is not a JSON object
(`HistoryArtifact.nonDict`) — yields the empty history in either case,
while the loaded URL list is exactly what it would be with any other
history artifact — the two artifacts are processed independently and no
exception reaches the caller (the loader is a total function). -/
theorem corrupt_history_loads_empty (ua : UrlsArtifact) (ha : HistoryArtifact) :
    (load_persisted_data ua HistoryArtifact.corrupt).2 = [] ∧
    (load_persisted_data ua HistoryArtifact.nonDict).2 = [] ∧
    (load_persisted_data ua HistoryArtifact.corrupt).1 =
      (load_persisted_data ua ha).1 ∧
    (load_persisted_data ua HistoryArtifact.nonDict).1 =
      (load_persisted_data ua ha).1 :=
  ⟨rfl, rfl, rfl, rfl⟩

end HealthCheck
